import Mathlib

/-!
A shallow embedding of the autograd core of `tinygrad/tensor.py`.

Tensors live on an allocation-ordered heap (`State`, a list of `Tensor`
records); a `TensorId` is an index into that heap.  Every operation dispatch
appends the freshly constructed output tensor at the end of the heap, so a
tensor's parents always have strictly smaller identifiers than the tensor
itself (`WF` below).  Python object identity becomes `TensorId` equality,
which makes the identity-based `visited` set of `deepwalk` a list of ids.

Numeric buffers are idealized: a numpy array becomes an `NDArray`, a shape
together with a flat list of rational elements.  The four elementwise kernels
(`add`, `sub`, `mul`, `div`) are modelled from the spec because the kernel
library (`tinygrad/ops.py`) is outside the provided source; everything else is
translated directly from `tensor.py`.
-/

namespace TinyGrad

/-- Tensor identifiers: positions in the allocation-ordered heap. -/
abbrev TensorId := Nat

/-- The numpy element types the constructor distinguishes. -/
inductive DType
  | float32
  | float64
  | int64
  | otherDt
deriving DecidableEq

/-- A numpy-style buffer: a shape together with the flat list of elements
(idealized as rationals). -/
structure NDArray where
  shape : List Nat
  values : List Rat
deriving DecidableEq

/-- Number of elements of a shape (product of the dimensions). -/
def numel (shape : List Nat) : Nat := shape.foldl (· * ·) 1

/-- Elementwise combination of two buffers (meaningful when shapes agree). -/
def NDArray.ewise (f : Rat → Rat → Rat) (x y : NDArray) : NDArray :=
  ⟨x.shape, List.zipWith f x.values y.values⟩

/-- `np.ones(x.shape)`: a buffer of ones with the same shape as `x`. -/
def onesLike (x : NDArray) : NDArray := ⟨x.shape, List.replicate (numel x.shape) 1⟩

/-- The registered primitive operations the claims exercise. -/
inductive Op | add | sub | mul | div
deriving DecidableEq

/-- `type(ctx).__name__`: the class name of a `Function` instance, as it is
interpolated into assertion messages. -/
def Op.printName : Op → String
  | .add => "Add"
  | .sub => "Sub"
  | .mul => "Mul"
  | .div => "Div"

def addKey : String := "add"

def subKey : String := "sub"

def mulKey : String := "mul"

def divKey : String := "div"

/-- An Operation Context (`Function` instance): records the operation, the
parent tensors it consumed, the buffers stashed by `save_for_backward`, and
the attributes set on the instance by `Function.apply`. -/
structure Ctx where
  op : Op
  parents : List TensorId
  saved : List NDArray
  attrs : List (String × Rat)
deriving DecidableEq

/-- A tensor node: `data` buffer, optional gradient tensor (`grad`, a heap
reference), optional producer context (`_ctx`), and the device flag. -/
structure Tensor where
  data : NDArray
  grad : Option TensorId
  ctx : Option Ctx
  gpu : Bool
deriving DecidableEq

/-- The heap of all tensors allocated so far, in allocation order. -/
abbrev State := List Tensor

/-- The error taxonomy of the engine (each constructor is one of the fatal
Python exceptions the source can raise). -/
inductive Err
  | typeMismatch
  | backendUnavailable
  | opNotFound
  | shapeMismatch (opname : String)
  | assertionFailure
deriving DecidableEq

/-- Modelled from the spec: the concrete kernels live in `tinygrad/ops.py`,
outside the provided source.  Following the spec's operation-kernel interface,
each forward takes the raw input buffers and returns the output buffer plus
the values it saves for backward; the four arithmetic kernels are elementwise
maps over same-shape buffers, with `mul` and `div` stashing their inputs. -/
def Op.forward : Op → List NDArray → Except Err (NDArray × List NDArray)
  | .add, [x, y] =>
      if x.shape = y.shape then .ok (x.ewise (· + ·) y, []) else .error .assertionFailure
  | .sub, [x, y] =>
      if x.shape = y.shape then .ok (x.ewise (· - ·) y, []) else .error .assertionFailure
  | .mul, [x, y] =>
      if x.shape = y.shape then .ok (x.ewise (· * ·) y, [x, y]) else .error .assertionFailure
  | .div, [x, y] =>
      if x.shape = y.shape then .ok (x.ewise (· / ·) y, [x, y]) else .error .assertionFailure
  | _, _ => .error .assertionFailure

/-- Modelled from the spec: the backward halves of the kernels in
`tinygrad/ops.py`.  Each returns one gradient buffer per parent, positionally;
`add` propagates the upstream gradient unchanged to both parents, `mul`
multiplies it by the saved other factor, following the chain rule contract
described in the spec. -/
def Op.backward : Op → List NDArray → NDArray → List (Option NDArray)
  | .add, _, g => [some g, some g]
  | .sub, _, g => [some g, some ⟨g.shape, g.values.map Neg.neg⟩]
  | .mul, [x, y], g => [some (y.ewise (· * ·) g), some (x.ewise (· * ·) g)]
  | .mul, _, _ => []
  | .div, [x, y], g =>
      [some (g.ewise (· / ·) y),
       some (((x.ewise (fun a b => -a / (b * b)) y)).ewise (· * ·) g)]
  | .div, _, _ => []

/-- Declared default parameter values of each forward implementation (none of
the four arithmetic kernels declares a defaulted parameter). -/
def Op.defaults : Op → List (String × Rat) := fun _ => []

/-- `Tensor.ops`: the CPU operation registry populated by `register`. -/
def Tensor.ops : List (String × Op) := [(addKey, .add), (subKey, .sub), (mulKey, .mul), (divKey, .div)]

/-- `Tensor.opsgpu`: the GPU registry (empty when pyopencl is unavailable). -/
def Tensor.opsgpu : List (String × Op) := []

/-- Attribute resolution in `Function.apply`: `setattr` the declared defaults
onto the context first, then the caller-supplied keyword arguments, so a later
write to the same name wins. -/
def resolveAttrs (defaults kwargs : List (String × Rat)) : List (String × Rat) :=
  defaults ++ kwargs

/-- Reading an attribute from a context: the value of the last `setattr` for
that name, mirroring assignment into a Python instance dictionary. -/
def Ctx.getattr (c : Ctx) (k : String) : Option Rat := c.attrs.reverse.lookup k

/-- The raw input buffers `[t.data for t in x]` read from the heap. -/
def rawData (s : State) : List TensorId → Except Err (List NDArray)
  | [] => .ok []
  | i :: rest =>
    match s[i]? with
    | none => .error .assertionFailure
    | some t =>
      match rawData s rest with
      | .error e => .error e
      | .ok ds => .ok (t.data :: ds)

/-- `Function.apply`: construct the context with the inputs as parents,
resolve attributes (defaults then keyword overrides), run the forward kernel
on the raw buffers, wrap the result in a fresh tensor, and attach the context
as the output's producer. -/
def Function.apply (op : Op) (xs : List TensorId) (kwargs : List (String × Rat)) (s : State) :
    Except Err (TensorId × State) :=
  match rawData s xs with
  | .error e => .error e
  | .ok datas =>
    match op.forward datas with
    | .error e => .error e
    | .ok (out, saved) =>
      .ok (s.length, s ++ [⟨out, none, some ⟨op, xs, saved, resolveAttrs op.defaults kwargs⟩, false⟩])

/-- The `dispatch` closure installed by `register`: pick the registry by the
first input's device flag, look the operation up by name, and run
`Function.apply`; a missing entry is the OperationNotFound failure. -/
def dispatch (name : String) (xs : List TensorId) (kwargs : List (String × Rat)) (s : State) :
    Except Err (TensorId × State) :=
  match xs with
  | [] => .error .assertionFailure
  | x0 :: _ =>
    match s[x0]? with
    | none => .error .assertionFailure
    | some t0 =>
      match (if t0.gpu then Tensor.opsgpu else Tensor.ops).lookup name with
      | none => .error .opNotFound
      | some op => Function.apply op xs kwargs s

/-- `Tensor(g)` applied to a raw float32 buffer: a fresh leaf tensor on the
host device with no gradient and no producer. -/
def Tensor.ofBuffer (g : NDArray) : Tensor := ⟨g, none, none, false⟩

/-- The inputs `Tensor.__init__` distinguishes: a (flat) numeric literal list,
a numpy array carrying a dtype, an OpenCL buffer, or anything else. -/
inductive PyVal
  | pylist (xs : List Rat)
  | ndarray (a : NDArray) (dt : DType)
  | clbuffer
  | otherVal

/-- `Tensor.__init__` in the CPU-only configuration (pyopencl absent, so the
`cl.Buffer` branch is dead and such data falls through to the type error).
State threaded through: the process-wide `Tensor.did_float_warning` flag.
Returns the constructed tensor, the new flag, and whether the one-time
precision warning was printed by this call. -/
def Tensor.init (warned : Bool) (v : PyVal) : Except Err (Tensor × Bool × Bool) :=
  match v with
  | .pylist xs => .ok (⟨⟨[xs.length], xs⟩, none, none, false⟩, warned, false)
  | .ndarray a dt =>
      if dt ≠ DType.float32 ∧ warned = false then
        .ok (⟨a, none, none, false⟩, true, true)
      else
        .ok (⟨a, none, none, false⟩, warned, false)
  | _ => .error .typeMismatch

/-- The in-place arithmetic form installed by `register` for
add/sub/mul/div: `lambda self, x: self.assign(dispatch(self, x))`, where
`assign` overwrites only the receiver's `data` with the result's `data`. -/
def Tensor.inplace (name : String) (s : State) (selfId xId : TensorId) : Except Err State :=
  match dispatch name [selfId, xId] [] s with
  | .error e => .error e
  | .ok (rid, s1) =>
    match s1[selfId]?, s1[rid]? with
    | some st, some rt => .ok (s1.set selfId { st with data := rt.data })
    | _, _ => .error .assertionFailure

/-- The producer context of heap slot `i`, if any. -/
def ctxOf (s : State) (i : TensorId) : Option Ctx := (s[i]?).bind Tensor.ctx

/-- The parents of heap slot `i` (empty for leaves). -/
def parentsOf (s : State) (i : TensorId) : List TensorId :=
  match ctxOf s i with
  | some c => c.parents
  | none => []

/-- Whether heap slot `i` holds an operation output (`node._ctx` truthy). -/
def hasCtx (s : State) (i : TensorId) : Bool := (ctxOf s i).isSome

/-- The recursive `deepwalk` closure inside `Tensor.backward`, with explicit
fuel (the heap is allocation-ordered, so fuel `i + 1` suffices at node `i`).
The accumulator is the pair (visited set, nodes list); the node is added to
`visited` on entry, its not-yet-visited parents are walked in order, and the
node is appended to `nodes` only when it has a producer context. -/
def deepwalkAux (s : State) : Nat → TensorId → List TensorId × List TensorId → List TensorId × List TensorId
  | 0, _, acc => acc
  | fuel + 1, i, acc =>
    let v := i :: acc.1
    match ctxOf s i with
    | none => (v, acc.2)
    | some c =>
      let r := c.parents.foldl (fun a p => if p ∈ a.1 then a else deepwalkAux s fuel p a) (v, acc.2)
      (r.1, r.2 ++ [i])

/-- `deepwalk(self)` with empty visited set and empty nodes list. -/
def Tensor.deepwalk (s : State) (root : TensorId) : List TensorId × List TensorId :=
  deepwalkAux s (root + 1) root ([], [])

/-- The seeding phase of `Tensor.backward`: when the terminal tensor has no
gradient and filling is allowed, assert its shape is exactly `(1,)` and seed
the gradient with a fresh ones tensor of that shape on the same device. -/
def seedGrad (s : State) (selfId : TensorId) (allowFill : Bool) : Except Err State :=
  match s[selfId]? with
  | none => .error .assertionFailure
  | some t =>
    if t.grad = none ∧ allowFill = true then
      if t.data.shape = [1] then
        .ok ((s.set selfId { t with grad := some s.length }) ++ [⟨onesLike t.data, none, none, t.gpu⟩])
      else .error .assertionFailure
    else .ok s

/-- The store `t.grad = <tensor rid>` on heap slot `t`. -/
def setGrad (s2 : State) (t : TensorId) (rid : TensorId) : Except Err State :=
  match s2[t]? with
  | some tt2 => .ok (s2.set t { tt2 with grad := some rid })
  | none => .error .assertionFailure

/-- One `(parent, gradient-buffer)` step of the accumulation loop: a `None`
buffer is skipped; a shape mismatch with the parent's data is the fatal
assertion interpolating `self._ctx` (whose printed name is `opname`);
otherwise the contribution is adopted (`t.grad = Tensor(g)`) or added through
the dispatched `add` operation (`t.grad = t.grad + Tensor(g)`). -/
def accumulateOne (opname : String) (s : State) (t : TensorId) (g : Option NDArray) :
    Except Err State :=
  match g with
  | none => .ok s
  | some g =>
    match s[t]? with
    | none => .error .assertionFailure
    | some tt =>
      if g.shape = tt.data.shape then
        match tt.grad with
        | none => .ok ((s.set t { tt with grad := some s.length }) ++ [Tensor.ofBuffer g])
        | some gid =>
            match dispatch addKey [gid, s.length] [] (s ++ [Tensor.ofBuffer g]) with
            | .error e => .error e
            | .ok (rid, s2) => setGrad s2 t rid
      else .error (.shapeMismatch opname)

/-- The `zip(t0._ctx.parents, grads)` loop of `Tensor.backward`. -/
def accumulateAll (opname : String) : State → List (TensorId × Option NDArray) → Except Err State
  | s, [] => .ok s
  | s, (t, g) :: rest =>
    match accumulateOne opname s t g with
    | .error e => .error e
    | .ok s1 => accumulateAll opname s1 rest

/-- Processing one node of the reversed walk: assert it has a gradient, run
the producer's backward kernel on the gradient's raw buffer, and accumulate
the per-parent contributions. -/
def backwardNode (opname : String) (s : State) (t0 : TensorId) : Except Err State :=
  match s[t0]? with
  | none => .error .assertionFailure
  | some t =>
    match t.ctx with
    | none => .error .assertionFailure
    | some c =>
      match t.grad with
      | none => .error .assertionFailure
      | some gid =>
        match s[gid]? with
        | none => .error .assertionFailure
        | some gt => accumulateAll opname s (c.parents.zip (c.op.backward c.saved gt.data))

/-- `for t0 in reversed(nodes): ...` (the list passed in is already
reversed). -/
def processNodes (opname : String) : State → List TensorId → Except Err State
  | s, [] => .ok s
  | s, t :: rest =>
    match backwardNode opname s t with
    | .error e => .error e
    | .ok s1 => processNodes opname s1 rest

/-- `Tensor.backward`: return immediately when the tensor has no producer;
otherwise seed the terminal gradient if needed, walk the graph, and propagate
over the reversed node order. -/
def Tensor.backward (s : State) (selfId : TensorId) (allowFill : Bool := true) :
    Except Err State :=
  match s[selfId]? with
  | none => .error .assertionFailure
  | some t =>
    match t.ctx with
    | none => .ok s
    | some c =>
      match seedGrad s selfId allowFill with
      | .error e => .error e
      | .ok s1 => processNodes c.op.printName s1 (Tensor.deepwalk s1 selfId).2.reverse

/-- The data of the gradient tensor attached to heap slot `i`, if any
(`t.grad.data` in the source). -/
def gradData (s : State) (i : TensorId) : Option NDArray :=
  match s[i]? with
  | none => none
  | some t =>
    match t.grad with
    | none => none
    | some gid =>
      match s[gid]? with
      | none => none
      | some gt => some gt.data

/-- Heap well-formedness: every producer edge points strictly downward in
allocation order (dispatch creates outputs after their parents, so every
reachable state satisfies this). -/
def WF (s : State) : Prop :=
  ∀ i, ∀ c, ctxOf s i = some c → ∀ p ∈ c.parents, p < i

/-- The spec's shape invariant on a heap: every present gradient resolves to
a tensor whose data shape equals the owner's data shape. -/
def GInv (s : State) : Prop :=
  ∀ (i : TensorId) (t : Tensor), s[i]? = some t → ∀ gid, t.grad = some gid →
    ∃ u : Tensor, s[gid]? = some u ∧ u.data.shape = t.data.shape

/-! ### List helper lemmas -/

theorem get_append_lt {α : Type} (s t : List α) (i : Nat) (h : i < s.length) :
    (s ++ t)[i]? = s[i]? := by
  rw [List.getElem?_append]; simp [h]

theorem get_snoc_length {α : Type} (s : List α) (x : α) : (s ++ [x])[s.length]? = some x := by
  rw [List.getElem?_append]; simp

theorem get_set_same {α : Type} (s : List α) (i : Nat) (x : α) (h : i < s.length) :
    (s.set i x)[i]? = some x := by
  rw [List.getElem?_set]; simp [h]

theorem get_set_other {α : Type} (s : List α) (i j : Nat) (x : α) (h : i ≠ j) :
    (s.set i x)[j]? = s[j]? := by
  rw [List.getElem?_set]; simp [h]

theorem get_valid {α : Type} {s : List α} {i : Nat} {x : α} (h : s[i]? = some x) :
    i < s.length :=
  (List.getElem?_eq_some.mp h).1

theorem lookup_append_left {α β : Type} [DecidableEq α] {l₁ : List (α × β)} (l₂ : List (α × β))
    {k : α} {v : β} (h : l₁.lookup k = some v) : (l₁ ++ l₂).lookup k = some v := by
  induction l₁ with
  | nil => simp [List.lookup] at h
  | cons p rest ih =>
      rcases p with ⟨a, b⟩
      cases hka : (k == a) with
      | true => simp only [List.cons_append, List.lookup, hka] at h ⊢; exact h
      | false => simp only [List.cons_append, List.lookup, hka] at h ⊢; exact ih h

/-! ### Inversion lemmas for `Function.apply` and `dispatch` -/

theorem Function.apply_ok_inv {op : Op} {xs : List TensorId} {kwargs : List (String × Rat)}
    {s : State} {rid : TensorId} {s1 : State}
    (h : Function.apply op xs kwargs s = Except.ok (rid, s1)) :
    rid = s.length ∧ ∃ datas out saved,
      rawData s xs = Except.ok datas ∧
      op.forward datas = Except.ok (out, saved) ∧
      s1 = s ++ [⟨out, none, some ⟨op, xs, saved, resolveAttrs op.defaults kwargs⟩, false⟩] := by
  unfold Function.apply at h
  split at h
  · cases h
  · rename_i datas hm
    split at h
    · cases h
    · rename_i out saved hf
      injection h with h
      injection h with h1 h2
      exact ⟨h1.symm, datas, out, saved, hm, hf, h2.symm⟩

theorem dispatch_ok_inv {name : String} {xs : List TensorId} {kwargs : List (String × Rat)}
    {s : State} {rid : TensorId} {s1 : State}
    (h : dispatch name xs kwargs s = Except.ok (rid, s1)) :
    ∃ op, (Tensor.ops.lookup name = some op ∨ Tensor.opsgpu.lookup name = some op) ∧
      Function.apply op xs kwargs s = Except.ok (rid, s1) := by
  unfold dispatch at h
  split at h
  · cases h
  · split at h
    · cases h
    · rename_i t0 h0
      split at h
      · cases h
      · rename_i op hl
        by_cases hg : t0.gpu = true
        · rw [if_pos hg] at hl
          exact ⟨op, Or.inr hl, h⟩
        · rw [if_neg hg] at hl
          exact ⟨op, Or.inl hl, h⟩

theorem rawData_ok_get {s : State} {xs : List TensorId} {datas : List NDArray}
    (h : rawData s xs = Except.ok datas) : ∀ i ∈ xs, ∃ t : Tensor, s[i]? = some t := by
  induction xs generalizing datas with
  | nil => intro i hi; cases hi
  | cons y ys ih =>
      unfold rawData at h
      split at h
      · cases h
      · rename_i t hy
        split at h
        · cases h
        · rename_i ds hds
          intro i hi
          rcases List.mem_cons.mp hi with hiy | hirest
          · exact ⟨t, hiy ▸ hy⟩
          · exact ih hds i hirest

/-! ### Claim theorems: the simple contracts -/

/-- C7: for every tensor `t` with no producer, `t.backward()` is a no-op: it
returns immediately and the heap (hence `t.grad` and all other state) is
unchanged. -/
theorem backward_noop_without_producer (s : State) (i : TensorId) (t : Tensor) (af : Bool)
    (h : s[i]? = some t) (hc : t.ctx = none) :
    Tensor.backward s i af = Except.ok s := by
  simp only [Tensor.backward, h, hc]

def noopState : State := [⟨⟨[1], [2]⟩, none, none, false⟩]

theorem backward_noop_without_producer_witness :
    Tensor.backward noopState 0 true = Except.ok noopState :=
  backward_noop_without_producer noopState 0 ⟨⟨[1], [2]⟩, none, none, false⟩ true rfl rfl

/-- C4: in the accumulation loop, an absent (`None`) gradient buffer is
skipped leaving the whole state unchanged for that pair, and a present buffer
whose shape differs from the parent's data shape is the fatal ShapeMismatch
assertion (interpolating the operation name) with no accumulation. -/
theorem grad_pair_skip_and_shape_check :
    (∀ (opname : String) (s : State) (t : TensorId),
      accumulateOne opname s t none = Except.ok s)
    ∧ (∀ (opname : String) (s : State) (t : TensorId) (tt : Tensor) (g : NDArray),
        s[t]? = some tt → g.shape ≠ tt.data.shape →
        accumulateOne opname s t (some g) = Except.error (Err.shapeMismatch opname)) := by
  constructor
  · intro opname s t; rfl
  · intro opname s t tt g h hne
    simp only [accumulateOne, h]
    rw [if_neg hne]

def mismatchState : State := [⟨⟨[1], [5]⟩, none, none, false⟩]

theorem grad_pair_skip_and_shape_check_witness :
    accumulateOne addKey mismatchState 0 none = Except.ok mismatchState ∧
    accumulateOne addKey mismatchState 0 (some ⟨[2], [1, 2]⟩) =
      Except.error (Err.shapeMismatch addKey) :=
  ⟨grad_pair_skip_and_shape_check.1 addKey mismatchState 0,
   grad_pair_skip_and_shape_check.2 addKey mismatchState 0 _ _ rfl (by decide)⟩

/-- C9: attributes on a constructed Operation Context come from the forward
implementation's declared defaults overwritten by the caller's keyword
arguments, so a caller-supplied binding for a name always wins over a
declared default for that name; and `Function.apply` installs exactly that
resolution on the output's context. -/
theorem kwargs_override_defaults :
    (∀ (c : Ctx) (defaults kwargs : List (String × Rat)) (k : String) (v : Rat),
      c.attrs = resolveAttrs defaults kwargs → kwargs.reverse.lookup k = some v →
      c.getattr k = some v)
    ∧ (∀ (op : Op) (xs : List TensorId) (kwargs : List (String × Rat)) (s : State)
        (rid : TensorId) (s1 : State), Function.apply op xs kwargs s = Except.ok (rid, s1) →
        ∃ saved, ctxOf s1 rid = some ⟨op, xs, saved, resolveAttrs op.defaults kwargs⟩) := by
  constructor
  · intro c defaults kwargs k v hattrs hlk
    unfold Ctx.getattr
    rw [hattrs]
    unfold resolveAttrs
    rw [List.reverse_append]
    exact lookup_append_left _ hlk
  · intro op xs kwargs s rid s1 h
    obtain ⟨hrid, datas, out, saved, _, _, hs1⟩ := Function.apply_ok_inv h
    refine ⟨saved, ?_⟩
    subst hs1 hrid
    unfold ctxOf
    rw [get_snoc_length]
    rfl

theorem kwargs_override_defaults_witness :
    Ctx.getattr ⟨Op.add, [], [], resolveAttrs [(addKey, 1)] [(addKey, 2)]⟩ addKey = some 2 :=
  kwargs_override_defaults.1 _ [(addKey, 1)] [(addKey, 2)] addKey 2 rfl rfl

/-- C5 counterexample: constructing a tensor from a numpy array with a
non-floating element type (int64) does not fail with a TypeMismatch; it
succeeds (and prints the one-time precision diagnostic). -/
theorem init_counterexample :
    Tensor.init false (PyVal.ndarray ⟨[2], [1, 2]⟩ DType.int64) =
      Except.ok (⟨⟨[2], [1, 2]⟩, none, none, false⟩, true, true) := rfl

/-- C5 amended: construction accepts a numeric literal list or a numpy
array; any other representation (including an OpenCL buffer in the CPU-only
configuration) fails with the TypeMismatch error; a numpy array whose dtype
is not the canonical float32 — floating or not — succeeds and surfaces the
precision-mismatch diagnostic at most once per process (never once the
process-wide flag is set). -/
theorem init_amended :
    (∀ warned, Tensor.init warned PyVal.clbuffer = Except.error Err.typeMismatch)
    ∧ (∀ warned, Tensor.init warned PyVal.otherVal = Except.error Err.typeMismatch)
    ∧ (∀ (a : NDArray) (dt : DType), dt ≠ DType.float32 →
        Tensor.init false (PyVal.ndarray a dt) = Except.ok (⟨a, none, none, false⟩, true, true))
    ∧ (∀ (a : NDArray) (dt : DType),
        Tensor.init true (PyVal.ndarray a dt) = Except.ok (⟨a, none, none, false⟩, true, false))
    ∧ (∀ (a : NDArray) warned,
        Tensor.init warned (PyVal.ndarray a DType.float32) =
          Except.ok (⟨a, none, none, false⟩, warned, false))
    ∧ (∀ (xs : List Rat) warned,
        Tensor.init warned (PyVal.pylist xs) =
          Except.ok (⟨⟨[xs.length], xs⟩, none, none, false⟩, warned, false)) := by
  refine ⟨fun _ => rfl, fun _ => rfl, ?_, ?_, ?_, fun _ _ => rfl⟩
  · intro a dt hdt
    simp only [Tensor.init]
    rw [if_pos ((⟨hdt, trivial⟩ : dt ≠ DType.float32 ∧ True))]
  · intro a dt
    simp only [Tensor.init]
    rw [if_neg (fun hx : dt ≠ DType.float32 ∧ true = false => absurd hx.2 (by decide))]
  · intro a warned
    simp only [Tensor.init]
    rw [if_neg (fun hx : DType.float32 ≠ DType.float32 ∧ warned = false => hx.1 rfl)]

theorem init_amended_witness :
    Tensor.init false (PyVal.ndarray ⟨[1], [0]⟩ DType.float64) =
      Except.ok (⟨⟨[1], [0]⟩, none, none, false⟩, true, true) :=
  init_amended.2.2.1 ⟨[1], [0]⟩ DType.float64 (by decide)

/-- A producer-carrying tensor of shape `(1,1)`: a single-element tensor whose
shape is not `(1,)`. -/
def seedCounterState : State :=
  [⟨⟨[1, 1], [2]⟩, none, none, false⟩,
   ⟨⟨[1, 1], [4]⟩, none, some ⟨Op.add, [0, 0], [], []⟩, false⟩]

/-- C3 counterexample: tensor 1 is a single-element tensor (`numel = 1`) with
a producer and no pre-seeded gradient, yet `backward` with seeding permitted
raises the assertion instead of initializing the gradient to ones, because
its shape is `(1,1)` rather than exactly `(1,)`. -/
theorem seeding_counterexample :
    numel [1, 1] = 1 ∧
    (seedCounterState[1]?.map Tensor.grad) = some none ∧
    Tensor.backward seedCounterState 1 true = Except.error Err.assertionFailure :=
  ⟨rfl, rfl, rfl⟩

/-- C3 amended: when `backward` is called on a tensor with a producer, absent
grad, and seeding permitted, the gradient is initialized to a ones tensor of
matching shape and device exactly when the data shape is `(1,)`; for every
other shape — multi-element tensors, and also single-element tensors of any
other rank — backward fails with the AssertionFailure. -/
theorem seeding_amended (s : State) (i : TensorId) (t : Tensor) (c : Ctx)
    (h : s[i]? = some t) (hc : t.ctx = some c) (hg : t.grad = none) :
    (t.data.shape = [1] →
      seedGrad s i true =
        Except.ok ((s.set i { t with grad := some s.length }) ++
          [⟨onesLike t.data, none, none, t.gpu⟩]))
    ∧ (t.data.shape ≠ [1] → Tensor.backward s i true = Except.error Err.assertionFailure) := by
  have hcond : t.grad = none ∧ True := ⟨hg, trivial⟩
  constructor
  · intro hsh
    simp only [seedGrad, h]
    rw [if_pos hcond, if_pos hsh]
  · intro hsh
    have hseed : seedGrad s i true = Except.error Err.assertionFailure := by
      simp only [seedGrad, h]
      rw [if_pos hcond, if_neg hsh]
    simp only [Tensor.backward, h, hc, hseed]

def seedWitState : State :=
  [⟨⟨[1], [3]⟩, none, none, false⟩,
   ⟨⟨[1], [6]⟩, none, some ⟨Op.add, [0, 0], [], []⟩, false⟩]

theorem seeding_amended_witness :
    seedGrad seedWitState 1 true =
      Except.ok ((seedWitState.set 1
          { data := ⟨[1], [6]⟩, grad := some 2, ctx := some ⟨Op.add, [0, 0], [], []⟩,
            gpu := false }) ++
        [⟨onesLike ⟨[1], [6]⟩, none, none, false⟩]) :=
  (seeding_amended seedWitState 1
      ⟨⟨[1], [6]⟩, none, some ⟨Op.add, [0, 0], [], []⟩, false⟩
      ⟨Op.add, [0, 0], [], []⟩ rfl rfl rfl).1 rfl

/-- C6: the in-place arithmetic forms (`__iadd__`/`__isub__`/`__imul__`/
`__idiv__`) perform a normal dispatch and then `assign`: the receiver's
`data` field becomes the dispatch result's buffer, while the receiver's
`grad` and producer context are exactly what `assign` leaves them — its
previous ones, so the result tensor's fresh gradient graph is dropped. -/
theorem inplace_assigns_result_data (name : String) (s : State) (a x : TensorId) (s1f : State)
    (hname : name = addKey ∨ name = subKey ∨ name = mulKey ∨ name = divKey)
    (h : Tensor.inplace name s a x = Except.ok s1f) :
    ∃ (rid : TensorId) (s1 : State) (st rt : Tensor),
      dispatch name [a, x] [] s = Except.ok (rid, s1) ∧
      s[a]? = some st ∧ s1[a]? = some st ∧ s1[rid]? = some rt ∧
      s1f = s1.set a { st with data := rt.data } ∧
      s1f[a]? = some { st with data := rt.data } := by
  unfold Tensor.inplace at h
  split at h
  · cases h
  · rename_i rid s1 hd
    split at h
    · rename_i st rt hsa hsr
      injection h with h
      obtain ⟨op, _, happly⟩ := dispatch_ok_inv hd
      obtain ⟨hrid, datas, out, saved, hraw, _, hs1⟩ := Function.apply_ok_inv happly
      obtain ⟨t0, ht0⟩ := rawData_ok_get hraw a (by simp)
      have halt : a < s.length := get_valid ht0
      have hsa0 : s1[a]? = s[a]? := by rw [hs1]; exact get_append_lt s _ a halt
      have hsta : s[a]? = some st := by rw [← hsa0]; exact hsa
      refine ⟨rid, s1, st, rt, hd, hsta, hsa, hsr, h.symm, ?_⟩
      rw [← h]
      have hals1 : a < s1.length := by
        rw [hs1, List.length_append]
        exact Nat.lt_of_lt_of_le halt (Nat.le_add_right _ _)
      exact get_set_same s1 a _ hals1
    · cases h

def inplaceBase : State := [⟨⟨[1], [2]⟩, none, none, false⟩, ⟨⟨[1], [3]⟩, none, none, false⟩]

theorem inplace_assigns_result_data_witness :
    ∃ (rid : TensorId) (s1 : State) (st rt : Tensor),
      dispatch addKey [0, 1] [] inplaceBase = Except.ok (rid, s1) ∧
      inplaceBase[0]? = some st ∧ s1[0]? = some st ∧ s1[rid]? = some rt ∧
      ([⟨⟨[1], [2 + 3]⟩, none, none, false⟩, ⟨⟨[1], [3]⟩, none, none, false⟩,
        ⟨⟨[1], [2 + 3]⟩, none, some ⟨Op.add, [0, 1], [], []⟩, false⟩] : State) =
        s1.set 0 { st with data := rt.data } ∧
      (([⟨⟨[1], [2 + 3]⟩, none, none, false⟩, ⟨⟨[1], [3]⟩, none, none, false⟩,
        ⟨⟨[1], [2 + 3]⟩, none, some ⟨Op.add, [0, 1], [], []⟩, false⟩] : State))[0]? =
        some { st with data := rt.data } :=
  inplace_assigns_result_data addKey inplaceBase 0 1 _ (Or.inl rfl) rfl

end TinyGrad

namespace TinyGrad

/-! ### Evaluation lemmas for the gradient-accumulation branches -/

theorem dispatch_add_eval {s : State} {gid fid : TensorId} {gt ft : Tensor}
    (hg : s[gid]? = some gt) (hf : s[fid]? = some ft) (hgpu : gt.gpu = false)
    (hsh : gt.data.shape = ft.data.shape) :
    dispatch addKey [gid, fid] [] s =
      Except.ok (s.length,
        s ++ ([⟨gt.data.ewise (· + ·) ft.data, none, some ⟨Op.add, [gid, fid], [], []⟩,
          false⟩] : State)) := by
  have hlk : List.lookup addKey Tensor.ops = some Op.add := rfl
  have hraw : rawData s [gid, fid] = Except.ok [gt.data, ft.data] := by
    simp only [rawData, hg, hf]
  have hfwd : Op.add.forward [gt.data, ft.data] =
      Except.ok (gt.data.ewise (· + ·) ft.data, []) := by
    simp only [Op.forward]
    rw [if_pos hsh]
  simp only [dispatch, hg, hgpu, Bool.false_eq_true, if_false, hlk, Function.apply, hraw, hfwd]
  rfl

theorem accumulateOne_adopt {opname : String} {s : State} {t : TensorId} {tt : Tensor}
    {g : NDArray} (h : s[t]? = some tt) (hsh : g.shape = tt.data.shape)
    (hg : tt.grad = none) :
    accumulateOne opname s t (some g) =
      Except.ok ((s.set t { tt with grad := some s.length }) ++ [Tensor.ofBuffer g]) := by
  simp only [accumulateOne, h, hg]
  rw [if_pos hsh]

theorem accumulateOne_accum {opname : String} {s : State} {t : TensorId} {tt gt : Tensor}
    {g : NDArray} {gid : TensorId}
    (h : s[t]? = some tt) (hg : tt.grad = some gid) (hgt : s[gid]? = some gt)
    (hgpu : gt.gpu = false) (hsh1 : gt.data.shape = g.shape) (hsh2 : g.shape = tt.data.shape) :
    accumulateOne opname s t (some g) =
      Except.ok (((s ++ [Tensor.ofBuffer g] ++
          ([⟨gt.data.ewise (· + ·) g, none, some ⟨Op.add, [gid, s.length], [], []⟩, false⟩] :
            State)).set t { tt with grad := some (s.length + 1) })) := by
  have hlt : t < s.length := get_valid h
  have hglt : gid < s.length := get_valid hgt
  have hg1 : (s ++ [Tensor.ofBuffer g])[gid]? = some gt := by
    rw [get_append_lt s _ gid hglt]; exact hgt
  have hf1 : (s ++ [Tensor.ofBuffer g])[s.length]? = some (Tensor.ofBuffer g) :=
    get_snoc_length s _
  have hgpu1 : gt.gpu = false := hgpu
  have hd := dispatch_add_eval hg1 hf1 hgpu1 hsh1
  have hlen1 : (s ++ [Tensor.ofBuffer g]).length = s.length + 1 := by
    simp
  rw [hlen1] at hd
  have hb1 : t < (s ++ [Tensor.ofBuffer g]).length := by
    rw [hlen1]
    exact Nat.lt_succ_of_lt hlt
  have hts : ((s ++ [Tensor.ofBuffer g]) ++
      ([⟨gt.data.ewise (· + ·) g, none, some ⟨Op.add, [gid, s.length], [], []⟩, false⟩] :
        State))[t]? = some tt := by
    rw [get_append_lt _ _ t hb1, get_append_lt s _ t hlt]
    exact h
  simp only [accumulateOne, h, hg]
  rw [if_pos hsh2]
  simp only [Tensor.ofBuffer] at hd hts ⊢
  simp only [hd, setGrad, hts]

end TinyGrad

namespace TinyGrad

/-! ### The diamond graph `y = x*a + x*b`, built through the dispatcher

`threeLeaves` holds the leaves `x`, `a`, `b` (ids 0, 1, 2); the two
multiplication outputs get ids 3 and 4, their sum id 5; `dmdS1`–`dmdS7` are
the successive heaps of the run, ending in the heap after `y.backward()`. -/

def threeLeaves (xv av bv : Rat) : State :=
  [Tensor.ofBuffer ⟨[1], [xv]⟩, Tensor.ofBuffer ⟨[1], [av]⟩, Tensor.ofBuffer ⟨[1], [bv]⟩]

def dmdS1 (xv av bv : Rat) : State :=
  threeLeaves xv av bv ++
    [⟨⟨[1], [xv * av]⟩, none, some ⟨Op.mul, [0, 1], [⟨[1], [xv]⟩, ⟨[1], [av]⟩], []⟩, false⟩]

def dmdS2 (xv av bv : Rat) : State :=
  dmdS1 xv av bv ++
    [⟨⟨[1], [xv * bv]⟩, none, some ⟨Op.mul, [0, 2], [⟨[1], [xv]⟩, ⟨[1], [bv]⟩], []⟩, false⟩]

def dmdS3 (xv av bv : Rat) : State :=
  dmdS2 xv av bv ++ [⟨⟨[1], [xv * av + xv * bv]⟩, none, some ⟨Op.add, [3, 4], [], []⟩, false⟩]

def dmdS4 (xv av bv : Rat) : State :=
  [⟨⟨[1], [xv]⟩, none, none, false⟩, ⟨⟨[1], [av]⟩, none, none, false⟩,
   ⟨⟨[1], [bv]⟩, none, none, false⟩,
   ⟨⟨[1], [xv * av]⟩, none, some ⟨Op.mul, [0, 1], [⟨[1], [xv]⟩, ⟨[1], [av]⟩], []⟩, false⟩,
   ⟨⟨[1], [xv * bv]⟩, none, some ⟨Op.mul, [0, 2], [⟨[1], [xv]⟩, ⟨[1], [bv]⟩], []⟩, false⟩,
   ⟨⟨[1], [xv * av + xv * bv]⟩, some 6, some ⟨Op.add, [3, 4], [], []⟩, false⟩,
   ⟨⟨[1], [1]⟩, none, none, false⟩]

def dmdS5 (xv av bv : Rat) : State :=
  [⟨⟨[1], [xv]⟩, none, none, false⟩, ⟨⟨[1], [av]⟩, none, none, false⟩,
   ⟨⟨[1], [bv]⟩, none, none, false⟩,
   ⟨⟨[1], [xv * av]⟩, some 7, some ⟨Op.mul, [0, 1], [⟨[1], [xv]⟩, ⟨[1], [av]⟩], []⟩, false⟩,
   ⟨⟨[1], [xv * bv]⟩, some 8, some ⟨Op.mul, [0, 2], [⟨[1], [xv]⟩, ⟨[1], [bv]⟩], []⟩, false⟩,
   ⟨⟨[1], [xv * av + xv * bv]⟩, some 6, some ⟨Op.add, [3, 4], [], []⟩, false⟩,
   ⟨⟨[1], [1]⟩, none, none, false⟩,
   ⟨⟨[1], [1]⟩, none, none, false⟩,
   ⟨⟨[1], [1]⟩, none, none, false⟩]

def dmdS6 (xv av bv : Rat) : State :=
  [⟨⟨[1], [xv]⟩, some 9, none, false⟩, ⟨⟨[1], [av]⟩, none, none, false⟩,
   ⟨⟨[1], [bv]⟩, some 10, none, false⟩,
   ⟨⟨[1], [xv * av]⟩, some 7, some ⟨Op.mul, [0, 1], [⟨[1], [xv]⟩, ⟨[1], [av]⟩], []⟩, false⟩,
   ⟨⟨[1], [xv * bv]⟩, some 8, some ⟨Op.mul, [0, 2], [⟨[1], [xv]⟩, ⟨[1], [bv]⟩], []⟩, false⟩,
   ⟨⟨[1], [xv * av + xv * bv]⟩, some 6, some ⟨Op.add, [3, 4], [], []⟩, false⟩,
   ⟨⟨[1], [1]⟩, none, none, false⟩,
   ⟨⟨[1], [1]⟩, none, none, false⟩,
   ⟨⟨[1], [1]⟩, none, none, false⟩,
   ⟨⟨[1], [bv * 1]⟩, none, none, false⟩,
   ⟨⟨[1], [xv * 1]⟩, none, none, false⟩]

def dmdS7 (xv av bv : Rat) : State :=
  [⟨⟨[1], [xv]⟩, some 12, none, false⟩, ⟨⟨[1], [av]⟩, some 13, none, false⟩,
   ⟨⟨[1], [bv]⟩, some 10, none, false⟩,
   ⟨⟨[1], [xv * av]⟩, some 7, some ⟨Op.mul, [0, 1], [⟨[1], [xv]⟩, ⟨[1], [av]⟩], []⟩, false⟩,
   ⟨⟨[1], [xv * bv]⟩, some 8, some ⟨Op.mul, [0, 2], [⟨[1], [xv]⟩, ⟨[1], [bv]⟩], []⟩, false⟩,
   ⟨⟨[1], [xv * av + xv * bv]⟩, some 6, some ⟨Op.add, [3, 4], [], []⟩, false⟩,
   ⟨⟨[1], [1]⟩, none, none, false⟩,
   ⟨⟨[1], [1]⟩, none, none, false⟩,
   ⟨⟨[1], [1]⟩, none, none, false⟩,
   ⟨⟨[1], [bv * 1]⟩, none, none, false⟩,
   ⟨⟨[1], [xv * 1]⟩, none, none, false⟩,
   ⟨⟨[1], [av * 1]⟩, none, none, false⟩,
   ⟨⟨[1], [bv * 1 + av * 1]⟩, none, some ⟨Op.add, [9, 11], [], []⟩, false⟩,
   ⟨⟨[1], [xv * 1]⟩, none, none, false⟩]

/-- Build `y = x*a + x*b` through three dispatches and run `y.backward()`. -/
def diamondRun (xv av bv : Rat) : Except Err State :=
  match dispatch mulKey [0, 1] [] (threeLeaves xv av bv) with
  | .error e => .error e
  | .ok (p1, s1) =>
    match dispatch mulKey [0, 2] [] s1 with
    | .error e => .error e
    | .ok (p2, s2) =>
      match dispatch addKey [p1, p2] [] s2 with
      | .error e => .error e
      | .ok (y, s3) => Tensor.backward s3 y true

theorem dmd_backward (xv av bv : Rat) :
    Tensor.backward (dmdS3 xv av bv) 5 true = Except.ok (dmdS7 xv av bv) := by
  have h5 : (dmdS3 xv av bv)[5]? =
      some ⟨⟨[1], [xv * av + xv * bv]⟩, none, some ⟨Op.add, [3, 4], [], []⟩, false⟩ := rfl
  have hseed : seedGrad (dmdS3 xv av bv) 5 true = Except.ok (dmdS4 xv av bv) := rfl
  have hdw : (Tensor.deepwalk (dmdS4 xv av bv) 5).2.reverse = [5, 4, 3] := rfl
  have h01 : backwardNode (Op.printName Op.add) (dmdS4 xv av bv) 5 =
      Except.ok (dmdS5 xv av bv) := rfl
  have h02 : backwardNode (Op.printName Op.add) (dmdS5 xv av bv) 4 =
      Except.ok (dmdS6 xv av bv) := rfl
  have h03 : backwardNode (Op.printName Op.add) (dmdS6 xv av bv) 3 =
      Except.ok (dmdS7 xv av bv) := rfl
  simp only [Tensor.backward, h5, hseed, hdw, processNodes, h01, h02, h03]

theorem dmd_run (xv av bv : Rat) : diamondRun xv av bv = Except.ok (dmdS7 xv av bv) := by
  have h1 : dispatch mulKey [0, 1] [] (threeLeaves xv av bv) =
      Except.ok (3, dmdS1 xv av bv) := rfl
  have h2 : dispatch mulKey [0, 2] [] (dmdS1 xv av bv) = Except.ok (4, dmdS2 xv av bv) := rfl
  have h3 : dispatch addKey [3, 4] [] (dmdS2 xv av bv) = Except.ok (5, dmdS3 xv av bv) := rfl
  simp only [diamondRun, h1, h2, h3, dmd_backward]

/-! ### A single path `y = x*c` on its own two-leaf heap -/

def twoLeaves (xv cv : Rat) : State :=
  [Tensor.ofBuffer ⟨[1], [xv]⟩, Tensor.ofBuffer ⟨[1], [cv]⟩]

def spS1 (xv cv : Rat) : State :=
  twoLeaves xv cv ++
    [⟨⟨[1], [xv * cv]⟩, none, some ⟨Op.mul, [0, 1], [⟨[1], [xv]⟩, ⟨[1], [cv]⟩], []⟩, false⟩]

def spS2 (xv cv : Rat) : State :=
  [⟨⟨[1], [xv]⟩, none, none, false⟩, ⟨⟨[1], [cv]⟩, none, none, false⟩,
   ⟨⟨[1], [xv * cv]⟩, some 3, some ⟨Op.mul, [0, 1], [⟨[1], [xv]⟩, ⟨[1], [cv]⟩], []⟩, false⟩,
   ⟨⟨[1], [1]⟩, none, none, false⟩]

def spS3 (xv cv : Rat) : State :=
  [⟨⟨[1], [xv]⟩, some 4, none, false⟩, ⟨⟨[1], [cv]⟩, some 5, none, false⟩,
   ⟨⟨[1], [xv * cv]⟩, some 3, some ⟨Op.mul, [0, 1], [⟨[1], [xv]⟩, ⟨[1], [cv]⟩], []⟩, false⟩,
   ⟨⟨[1], [1]⟩, none, none, false⟩,
   ⟨⟨[1], [cv * 1]⟩, none, none, false⟩,
   ⟨⟨[1], [xv * 1]⟩, none, none, false⟩]

/-- Build `y = x*c` through the dispatcher and run `y.backward()`. -/
def singlePathRun (xv cv : Rat) : Except Err State :=
  match dispatch mulKey [0, 1] [] (twoLeaves xv cv) with
  | .error e => .error e
  | .ok (y, s1) => Tensor.backward s1 y true

theorem sp_run (xv cv : Rat) : singlePathRun xv cv = Except.ok (spS3 xv cv) := by
  have h1 : dispatch mulKey [0, 1] [] (twoLeaves xv cv) = Except.ok (2, spS1 xv cv) := rfl
  have h2 : (spS1 xv cv)[2]? =
      some ⟨⟨[1], [xv * cv]⟩, none,
        some ⟨Op.mul, [0, 1], [⟨[1], [xv]⟩, ⟨[1], [cv]⟩], []⟩, false⟩ := rfl
  have hseed : seedGrad (spS1 xv cv) 2 true = Except.ok (spS2 xv cv) := rfl
  have hdw : (Tensor.deepwalk (spS2 xv cv) 2).2.reverse = [2] := rfl
  have h01 : backwardNode (Op.printName Op.mul) (spS2 xv cv) 2 = Except.ok (spS3 xv cv) := rfl
  simp only [singlePathRun, h1, Tensor.backward, h2, hseed, hdw, processNodes, h01]

end TinyGrad

namespace TinyGrad

/-- C1: in the accumulation step, a parent with no existing gradient adopts
the contributed buffer as its grad, and a parent with an existing gradient
gets the contribution added elementwise; consequently, in the diamond
`y = x*a + x*b` (leaf `x` feeding two independent multiplications whose
outputs are summed into the scalar `y`), `y.backward()` leaves `x.grad` equal
to the elementwise sum of the gradients obtained by running each path's
backward separately, here `a + b`. -/
theorem grad_accumulation_and_diamond :
    (∀ (opname : String) (s : State) (t : TensorId) (tt : Tensor) (g : NDArray),
      s[t]? = some tt → tt.grad = none → g.shape = tt.data.shape →
      ∃ sf, accumulateOne opname s t (some g) = Except.ok sf ∧ gradData sf t = some g)
    ∧ (∀ (opname : String) (s : State) (t : TensorId) (tt gt : Tensor) (g : NDArray)
        (gid : TensorId),
        s[t]? = some tt → tt.grad = some gid → s[gid]? = some gt → gt.gpu = false →
        gt.data.shape = g.shape → g.shape = tt.data.shape →
        ∃ sf, accumulateOne opname s t (some g) = Except.ok sf ∧
          gradData sf t = some (gt.data.ewise (· + ·) g))
    ∧ (∀ xv av bv : Rat,
        ∃ sf sa sb ga gb gf,
          diamondRun xv av bv = Except.ok sf ∧
          singlePathRun xv av = Except.ok sa ∧
          singlePathRun xv bv = Except.ok sb ∧
          gradData sa 0 = some ga ∧ gradData sb 0 = some gb ∧ gradData sf 0 = some gf ∧
          gf.values = (ga.ewise (· + ·) gb).values ∧ gf.values = [av + bv]) := by
  refine ⟨?_, ?_, ?_⟩
  · intro opname s t tt g h hg hsh
    refine ⟨_, accumulateOne_adopt h hsh hg, ?_⟩
    · have hlt : t < s.length := get_valid h
      have hlset : (s.set t { tt with grad := some s.length }).length = s.length := by simp
      have h1 : ((s.set t { tt with grad := some s.length }) ++ [Tensor.ofBuffer g])[t]? =
          some { tt with grad := some s.length } := by
        rw [get_append_lt _ _ t (by rw [hlset]; exact hlt)]
        exact get_set_same s t _ hlt
      have h2 : ((s.set t { tt with grad := some s.length }) ++
          [Tensor.ofBuffer g])[s.length]? = some (Tensor.ofBuffer g) := by
        have := get_snoc_length (s.set t { tt with grad := some s.length })
          (Tensor.ofBuffer g)
        rw [hlset] at this
        exact this
      simp only [gradData, h1, h2]
      rfl
  · intro opname s t tt gt g gid h hg hgt hgpu hsh1 hsh2
    refine ⟨_, accumulateOne_accum h hg hgt hgpu hsh1 hsh2, ?_⟩
    have hlt : t < s.length := get_valid h
    set big : State := s ++ [Tensor.ofBuffer g] ++
      ([⟨gt.data.ewise (· + ·) g, none, some ⟨Op.add, [gid, s.length], [], []⟩, false⟩] :
        State) with hbig
    have hbiglen : big.length = s.length + 2 := by simp [hbig]
    have hblt : t < big.length := by
      rw [hbiglen]; exact Nat.lt_of_lt_of_le hlt (Nat.le_add_right _ 2)
    have h1 : (big.set t { tt with grad := some (s.length + 1) })[t]? =
        some { tt with grad := some (s.length + 1) } :=
      get_set_same big t _ hblt
    have hlen1 : (s ++ [Tensor.ofBuffer g]).length = s.length + 1 := by simp
    have h2 : big[s.length + 1]? =
        some ⟨gt.data.ewise (· + ·) g, none, some ⟨Op.add, [gid, s.length], [], []⟩, false⟩ := by
      rw [hbig, ← hlen1]
      exact get_snoc_length _ _
    have hne : t ≠ s.length + 1 := Nat.ne_of_lt (Nat.lt_succ_of_lt hlt)
    have h2f : (big.set t { tt with grad := some (s.length + 1) })[s.length + 1]? =
        some ⟨gt.data.ewise (· + ·) g, none, some ⟨Op.add, [gid, s.length], [], []⟩, false⟩ := by
      rw [get_set_other big t (s.length + 1) _ hne]
      exact h2
    simp only [gradData, h1, h2f]
  · intro xv av bv
    refine ⟨_, _, _, _, _, _, dmd_run xv av bv, sp_run xv av, sp_run xv bv,
      rfl, rfl, rfl, ?_, ?_⟩
    · show ([bv * 1 + av * 1] : List Rat) = [av * 1 + bv * 1]
      rw [show bv * 1 + av * 1 = av * 1 + bv * 1 from by ring]
    · show ([bv * 1 + av * 1] : List Rat) = [av + bv]
      rw [show bv * 1 + av * 1 = av + bv from by ring]

end TinyGrad

namespace TinyGrad

theorem grad_accumulation_and_diamond_witness :
    (∃ sf, accumulateOne addKey [⟨⟨[1], [7]⟩, none, none, false⟩] 0 (some ⟨[1], [4]⟩) =
        Except.ok sf ∧ gradData sf 0 = some ⟨[1], [4]⟩)
    ∧ (∃ sf, accumulateOne addKey
          [⟨⟨[1], [7]⟩, some 1, none, false⟩, ⟨⟨[1], [2]⟩, none, none, false⟩] 0
          (some ⟨[1], [4]⟩) = Except.ok sf ∧
        gradData sf 0 = some ((⟨[1], [2]⟩ : NDArray).ewise (· + ·) ⟨[1], [4]⟩)) :=
  ⟨grad_accumulation_and_diamond.1 addKey [⟨⟨[1], [7]⟩, none, none, false⟩] 0
      ⟨⟨[1], [7]⟩, none, none, false⟩ ⟨[1], [4]⟩ rfl rfl rfl,
   grad_accumulation_and_diamond.2.1 addKey
      [⟨⟨[1], [7]⟩, some 1, none, false⟩, ⟨⟨[1], [2]⟩, none, none, false⟩] 0
      ⟨⟨[1], [7]⟩, some 1, none, false⟩ ⟨⟨[1], [2]⟩, none, none, false⟩ ⟨[1], [4]⟩ 1
      rfl rfl rfl rfl rfl rfl⟩

/-- C10: when a parent receives a second (or later) gradient contribution,
the accumulation is performed by dispatching the registered `add` operation,
so the parent's resulting grad tensor is an operation output with a producer
context (operation `add`, parents the previous grad tensor and the fresh
contribution tensor); a parent that received exactly its first contribution
holds a fresh leaf grad tensor with no producer. -/
theorem accumulated_grad_has_producer :
    Tensor.ops.lookup addKey = some Op.add
    ∧ (∀ (opname : String) (s : State) (t : TensorId) (tt : Tensor) (g : NDArray),
        s[t]? = some tt → g.shape = tt.data.shape → tt.grad = none →
        ∃ sf, accumulateOne opname s t (some g) = Except.ok sf ∧
          sf[t]? = some { tt with grad := some s.length } ∧
          sf[s.length]? = some (Tensor.ofBuffer g) ∧ (Tensor.ofBuffer g).ctx = none)
    ∧ (∀ (opname : String) (s : State) (t : TensorId) (tt gt : Tensor) (g : NDArray)
        (gid : TensorId),
        s[t]? = some tt → tt.grad = some gid → s[gid]? = some gt → gt.gpu = false →
        gt.data.shape = g.shape → g.shape = tt.data.shape →
        ∃ (sf : State) (rt : Tensor) (c : Ctx),
          accumulateOne opname s t (some g) = Except.ok sf ∧
          sf[t]? = some { tt with grad := some (s.length + 1) } ∧
          sf[s.length + 1]? = some rt ∧ rt.ctx = some c ∧ c.op = Op.add ∧
          c.parents = [gid, s.length]) := by
  refine ⟨rfl, ?_, ?_⟩
  · intro opname s t tt g h hsh hg
    refine ⟨_, accumulateOne_adopt h hsh hg, ?_, ?_, rfl⟩
    · have hlt : t < s.length := get_valid h
      have hlset : (s.set t { tt with grad := some s.length }).length = s.length := by simp
      rw [get_append_lt _ _ t (by rw [hlset]; exact hlt)]
      exact get_set_same s t _ hlt
    · have hlset : (s.set t { tt with grad := some s.length }).length = s.length := by simp
      have := get_snoc_length (s.set t { tt with grad := some s.length }) (Tensor.ofBuffer g)
      rw [hlset] at this
      exact this
  · intro opname s t tt gt g gid h hg hgt hgpu hsh1 hsh2
    refine ⟨_, ⟨gt.data.ewise (· + ·) g, none, some ⟨Op.add, [gid, s.length], [], []⟩, false⟩,
      ⟨Op.add, [gid, s.length], [], []⟩,
      accumulateOne_accum h hg hgt hgpu hsh1 hsh2, ?_, ?_, rfl, rfl, rfl⟩
    · have hlt : t < s.length := get_valid h
      have hbiglen : (s ++ [Tensor.ofBuffer g] ++
          ([⟨gt.data.ewise (· + ·) g, none, some ⟨Op.add, [gid, s.length], [], []⟩, false⟩] :
            State)).length = s.length + 2 := by simp
      exact get_set_same _ t _ (by
        rw [hbiglen]; exact Nat.lt_of_lt_of_le hlt (Nat.le_add_right _ 2))
    · have hlt : t < s.length := get_valid h
      have hne : t ≠ s.length + 1 := Nat.ne_of_lt (Nat.lt_succ_of_lt hlt)
      rw [get_set_other _ t (s.length + 1) _ hne]
      have hlen1 : (s ++ [Tensor.ofBuffer g]).length = s.length + 1 := by simp
      rw [← hlen1]
      exact get_snoc_length _ _

theorem accumulated_grad_has_producer_witness :
    (∃ sf, accumulateOne addKey [⟨⟨[1], [7]⟩, none, none, false⟩] 0 (some ⟨[1], [4]⟩) =
        Except.ok sf ∧
      sf[0]? = some ⟨⟨[1], [7]⟩, some 1, none, false⟩ ∧
      sf[1]? = some (Tensor.ofBuffer ⟨[1], [4]⟩) ∧ (Tensor.ofBuffer ⟨[1], [4]⟩).ctx = none)
    ∧ (∃ (sf : State) (rt : Tensor) (c : Ctx), accumulateOne addKey
          [⟨⟨[1], [7]⟩, some 1, none, false⟩, ⟨⟨[1], [2]⟩, none, none, false⟩] 0
          (some ⟨[1], [4]⟩) = Except.ok sf ∧
        sf[0]? = some ⟨⟨[1], [7]⟩, some 3, none, false⟩ ∧
        sf[3]? = some rt ∧ rt.ctx = some c ∧ c.op = Op.add ∧ c.parents = [1, 2]) :=
  ⟨accumulated_grad_has_producer.2.1 addKey [⟨⟨[1], [7]⟩, none, none, false⟩] 0
      ⟨⟨[1], [7]⟩, none, none, false⟩ ⟨[1], [4]⟩ rfl rfl rfl,
   accumulated_grad_has_producer.2.2 addKey
      [⟨⟨[1], [7]⟩, some 1, none, false⟩, ⟨⟨[1], [2]⟩, none, none, false⟩] 0
      ⟨⟨[1], [7]⟩, some 1, none, false⟩ ⟨⟨[1], [2]⟩, none, none, false⟩ ⟨[1], [4]⟩ 1
      rfl rfl rfl rfl rfl rfl⟩

end TinyGrad

namespace TinyGrad

/-! ### Preservation of the gradient shape invariant (`GInv`) -/

theorem GInv_adopt {s : State} {t : TensorId} {tt : Tensor} {u : Tensor}
    (h : s[t]? = some tt) (hu : u.grad = none) (hsh : u.data.shape = tt.data.shape)
    (hinv : GInv s) : GInv ((s.set t { tt with grad := some s.length }) ++ [u]) := by
  intro i ti hget gid hgid
  have hlt : t < s.length := get_valid h
  have hlset : (s.set t { tt with grad := some s.length }).length = s.length := by simp
  have hsnoc : ((s.set t { tt with grad := some s.length }) ++ [u])[s.length]? = some u := by
    have := get_snoc_length (s.set t { tt with grad := some s.length }) u
    rw [hlset] at this
    exact this
  by_cases hin : i < s.length
  · rw [get_append_lt _ _ i (by rw [hlset]; exact hin)] at hget
    by_cases hti : t = i
    · subst hti
      rw [get_set_same s t _ hlt] at hget
      injection hget with hget
      rw [← hget] at hgid
      have hgid2 : gid = s.length := by
        have : some s.length = some gid := hgid
        injection this with this
        exact this.symm
      subst hgid2
      refine ⟨u, hsnoc, ?_⟩
      rw [← hget]
      exact hsh
    · rw [get_set_other s t i _ hti] at hget
      obtain ⟨u0, hu0, hsh0⟩ := hinv i ti hget gid hgid
      have hgidlt : gid < s.length := get_valid hu0
      by_cases htg : t = gid
      · subst htg
        have huott : u0 = tt := by
          rw [h] at hu0
          injection hu0 with hu0
          exact hu0.symm
        refine ⟨{ tt with grad := some s.length }, ?_, ?_⟩
        · rw [get_append_lt _ _ t (by rw [hlset]; exact hlt)]
          exact get_set_same s t _ hlt
        · rw [← huott] at *
          exact hsh0
      · refine ⟨u0, ?_, hsh0⟩
        rw [get_append_lt _ _ gid (by rw [hlset]; exact hgidlt),
          get_set_other s t gid _ htg]
        exact hu0
  · by_cases hieq : i = s.length
    · subst hieq
      rw [hsnoc] at hget
      injection hget with hget
      rw [← hget, hu] at hgid
      cases hgid
    · have hnone : ((s.set t { tt with grad := some s.length }) ++ [u])[i]? = none := by
        apply List.getElem?_eq_none
        simp only [List.length_append, hlset, List.length_singleton]
        have h1 : s.length ≤ i := Nat.le_of_not_lt hin
        exact Nat.lt_of_le_of_ne h1 (fun he => hieq he.symm)
      rw [hnone] at hget
      cases hget

end TinyGrad

namespace TinyGrad

theorem GInv_accum {s : State} {t : TensorId} {tt : Tensor} {u1 u2 : Tensor}
    (h : s[t]? = some tt) (hu1 : u1.grad = none) (hu2 : u2.grad = none)
    (hsh2 : u2.data.shape = tt.data.shape) (hinv : GInv s) :
    GInv ((s ++ [u1] ++ [u2]).set t { tt with grad := some (s.length + 1) }) := by
  intro i ti hget gid hgid
  have hlt : t < s.length := get_valid h
  have hlen1 : (s ++ [u1]).length = s.length + 1 := by simp
  have hbiglen : (s ++ [u1] ++ [u2]).length = s.length + 2 := by simp
  have hblow : ∀ j : Nat, j < s.length → (s ++ [u1] ++ [u2])[j]? = s[j]? := by
    intro j hj
    rw [get_append_lt _ _ j (by rw [hlen1]; exact Nat.lt_succ_of_lt hj),
      get_append_lt s _ j hj]
  have hbn : (s ++ [u1] ++ [u2])[s.length]? = some u1 := by
    rw [get_append_lt _ _ s.length (by rw [hlen1]; exact Nat.lt_succ_self _)]
    exact get_snoc_length s u1
  have hbn1 : (s ++ [u1] ++ [u2])[s.length + 1]? = some u2 := by
    rw [← hlen1]
    exact get_snoc_length _ u2
  have htblt : t < (s ++ [u1] ++ [u2]).length := by
    rw [hbiglen]; exact Nat.lt_of_lt_of_le hlt (Nat.le_add_right _ 2)
  have hstt : ((s ++ [u1] ++ [u2]).set t { tt with grad := some (s.length + 1) })[t]? =
      some { tt with grad := some (s.length + 1) } := get_set_same _ t _ htblt
  by_cases hti : t = i
  · subst hti
    rw [hstt] at hget
    injection hget with hget
    rw [← hget] at hgid
    have hgid2 : gid = s.length + 1 := by
      have : some (s.length + 1) = some gid := hgid
      injection this with this
      exact this.symm
    subst hgid2
    have htne : t ≠ s.length + 1 := Nat.ne_of_lt (Nat.lt_succ_of_lt hlt)
    refine ⟨u2, ?_, ?_⟩
    · rw [get_set_other _ t (s.length + 1) _ htne]
      exact hbn1
    · rw [← hget]
      exact hsh2
  · rw [get_set_other _ t i _ hti] at hget
    by_cases hin : i < s.length
    · rw [hblow i hin] at hget
      obtain ⟨u0, hu0, hsh0⟩ := hinv i ti hget gid hgid
      have hgidlt : gid < s.length := get_valid hu0
      by_cases htg : t = gid
      · subst htg
        have huott : u0 = tt := by
          rw [h] at hu0
          injection hu0 with hu0
          exact hu0.symm
        refine ⟨{ tt with grad := some (s.length + 1) }, hstt, ?_⟩
        rw [← huott] at *
        exact hsh0
      · refine ⟨u0, ?_, hsh0⟩
        rw [get_set_other _ t gid _ htg, hblow gid hgidlt]
        exact hu0
    · by_cases hieq : i = s.length
      · subst hieq
        rw [hbn] at hget
        injection hget with hget
        rw [← hget, hu1] at hgid
        cases hgid
      · by_cases hieq1 : i = s.length + 1
        · subst hieq1
          rw [hbn1] at hget
          injection hget with hget
          rw [← hget, hu2] at hgid
          cases hgid
        · have hge : s.length + 2 ≤ i := by
            have h1 : s.length ≤ i := Nat.le_of_not_lt hin
            have h2 : s.length < i := Nat.lt_of_le_of_ne h1 (fun he => hieq he.symm)
            exact Nat.lt_of_le_of_ne h2 (fun he => hieq1 he.symm)
          have hnone : (s ++ [u1] ++ [u2])[i]? = none :=
            List.getElem?_eq_none (by rw [hbiglen]; exact hge)
          rw [hnone] at hget
          cases hget

end TinyGrad

namespace TinyGrad

theorem rawData_pair_inv {s : State} {x y : TensorId} {ds : List NDArray}
    (h : rawData s [x, y] = Except.ok ds) :
    ∃ tx ty : Tensor, s[x]? = some tx ∧ s[y]? = some ty ∧ ds = [tx.data, ty.data] := by
  unfold rawData at h
  split at h
  · cases h
  · rename_i tx htx
    split at h
    · cases h
    · rename_i ds1 hds1
      injection h with h
      unfold rawData at hds1
      split at hds1
      · cases hds1
      · rename_i ty hty
        split at hds1
        · cases hds1
        · rename_i ds2 hds2
          unfold rawData at hds2
          injection hds2 with hds2
          injection hds1 with hds1
          exact ⟨tx, ty, htx, hty, by rw [← h, ← hds1, ← hds2]⟩

theorem add_forward_ok_inv {a b out : NDArray} {saved : List NDArray}
    (h : Op.add.forward [a, b] = Except.ok (out, saved)) :
    a.shape = b.shape ∧ out = a.ewise (· + ·) b ∧ saved = [] := by
  simp only [Op.forward] at h
  split at h
  · rename_i hsh
    injection h with h
    injection h with h1 h2
    exact ⟨hsh, h1.symm, h2.symm⟩
  · cases h

theorem accumulateOne_preserves {opname : String} {s : State} {t : TensorId}
    {g : Option NDArray} {sf : State} (hinv : GInv s)
    (h : accumulateOne opname s t g = Except.ok sf) : GInv sf := by
  unfold accumulateOne at h
  split at h
  · injection h with h
    rw [← h]
    exact hinv
  · rename_i g
    split at h
    · cases h
    · rename_i tt htt
      split at h
      · rename_i hsh
        split at h
        · rename_i hgradnone
          injection h with h
          rw [← h]
          exact GInv_adopt htt rfl hsh hinv
        · rename_i gid hgrad
          split at h
          · cases h
          · rename_i rid s2 hd
            unfold setGrad at h
            split at h
            · rename_i tt2 htt2
              injection h with h
              obtain ⟨op, hop, happly⟩ := dispatch_ok_inv hd
              have hopadd : op = Op.add := by
                rcases hop with hop | hop
                · have hlk : Tensor.ops.lookup addKey = some Op.add := rfl
                  rw [hlk] at hop
                  injection hop with hop
                  exact hop.symm
                · simp [Tensor.opsgpu, List.lookup] at hop
              subst hopadd
              obtain ⟨hrid, datas, out, saved, hraw, hfwd, hs2⟩ := Function.apply_ok_inv happly
              obtain ⟨tx, ty, htx, hty, hds⟩ := rawData_pair_inv hraw
              subst hds
              obtain ⟨hshab, hout, hsaved⟩ := add_forward_ok_inv hfwd
              obtain ⟨gt0, hgt0, hshgt⟩ := hinv t tt htt gid hgrad
              have hgidlt : gid < s.length := get_valid hgt0
              have htx2 : tx = gt0 := by
                rw [get_append_lt s _ gid hgidlt, hgt0] at htx
                injection htx with htx
                exact htx.symm
              have hlt : t < s.length := get_valid htt
              have htt2eq : tt2 = tt := by
                rw [hs2, get_append_lt _ _ t (by
                    simp only [List.length_append, List.length_singleton]
                    exact Nat.lt_succ_of_lt hlt), get_append_lt s _ t hlt, htt] at htt2
                injection htt2 with htt2
                exact htt2.symm
              have hridval : rid = s.length + 1 := by
                rw [hrid]
                simp
              rw [← h, hs2, htt2eq, hridval]
              have hshape2 : out.shape = tt.data.shape := by
                rw [hout, htx2]
                show gt0.data.shape = tt.data.shape
                exact hshgt
              exact GInv_accum htt rfl rfl hshape2 hinv
            · cases h
      · cases h

theorem accumulateAll_preserves {opname : String} :
    ∀ {ps : List (TensorId × Option NDArray)} {s sf : State}, GInv s →
      accumulateAll opname s ps = Except.ok sf → GInv sf := by
  intro ps
  induction ps with
  | nil =>
      intro s sf hinv h
      injection h with h
      rw [← h]
      exact hinv
  | cons p rest ih =>
      intro s sf hinv h
      rcases p with ⟨t, g⟩
      unfold accumulateAll at h
      split at h
      · cases h
      · rename_i s1 h1
        exact ih (accumulateOne_preserves hinv h1) h

theorem backwardNode_preserves {opname : String} {s : State} {t0 : TensorId} {sf : State}
    (hinv : GInv s) (h : backwardNode opname s t0 = Except.ok sf) : GInv sf := by
  unfold backwardNode at h
  split at h
  · cases h
  · split at h
    · cases h
    · split at h
      · cases h
      · split at h
        · cases h
        · exact accumulateAll_preserves hinv h

theorem processNodes_preserves {opname : String} :
    ∀ {ns : List TensorId} {s sf : State}, GInv s →
      processNodes opname s ns = Except.ok sf → GInv sf := by
  intro ns
  induction ns with
  | nil =>
      intro s sf hinv h
      injection h with h
      rw [← h]
      exact hinv
  | cons t rest ih =>
      intro s sf hinv h
      unfold processNodes at h
      split at h
      · cases h
      · rename_i s1 h1
        exact ih (backwardNode_preserves hinv h1) h

theorem seedGrad_preserves {s : State} {i : TensorId} {af : Bool} {sf : State}
    (hinv : GInv s) (h : seedGrad s i af = Except.ok sf) : GInv sf := by
  unfold seedGrad at h
  split at h
  · cases h
  · rename_i t ht
    split at h
    · split at h
      · injection h with h
        rw [← h]
        exact GInv_adopt ht rfl rfl hinv
      · cases h
    · injection h with h
      rw [← h]
      exact hinv

/-- C8: after any successful `backward()` call starting from a heap
satisfying the gradient shape invariant, every tensor (in particular every
tensor reachable in the walked graph) whose `grad` is non-absent has a grad
tensor whose data shape equals its own data shape. -/
theorem backward_preserves_shape_invariant (s : State) (i : TensorId) (af : Bool) (sf : State)
    (hinv : GInv s) (h : Tensor.backward s i af = Except.ok sf) : GInv sf := by
  unfold Tensor.backward at h
  split at h
  · cases h
  · split at h
    · injection h with h
      rw [← h]
      exact hinv
    · split at h
      · cases h
      · rename_i s1 h1
        exact processNodes_preserves (seedGrad_preserves hinv h1) h

end TinyGrad

namespace TinyGrad

theorem GInv_of_no_grads (s : State) (hng : ∀ t ∈ s, t.grad = none) : GInv s := by
  intro i t h gid hg
  rw [hng t (List.getElem?_mem h)] at hg
  cases hg

theorem backward_preserves_shape_invariant_witness : GInv (dmdS7 1 2 3) :=
  backward_preserves_shape_invariant (dmdS3 1 2 3) 5 true (dmdS7 1 2 3)
    (GInv_of_no_grads _ (by decide)) (dmd_backward 1 2 3)

end TinyGrad

namespace TinyGrad

theorem wf_parentsOf {s : State} (hwf : WF s) {x p : Nat} (hp : p ∈ parentsOf s x) : p < x := by
  unfold parentsOf at hp
  cases hctx : ctxOf s x with
  | none => rw [hctx] at hp; cases hp
  | some c =>
      rw [hctx] at hp
      exact hwf x c hctx p hp

theorem parentsOf_nil_of_no_ctx {s : State} {x : Nat} (h : hasCtx s x = false) :
    parentsOf s x = [] := by
  unfold hasCtx at h
  unfold parentsOf
  cases hctx : ctxOf s x with
  | none => rfl
  | some c => rw [hctx] at h; cases h

/-- Invariants of the `(visited, nodes)` accumulator of `deepwalk`. -/
structure DWInv (s : State) (v n : List TensorId) : Prop where
  nodup : n.Nodup
  sub : ∀ x ∈ n, x ∈ v
  hasctx : ∀ x ∈ n, hasCtx s x = true
  closed : ∀ x ∈ n, ∀ p ∈ parentsOf s x, p ∈ v
  ord : ∀ x ∈ n, ∀ p ∈ parentsOf s x, p ∈ n → n.indexOf p < n.indexOf x

/-- What one (sub)walk starting below bound `B` adds to the accumulator. -/
structure DWOut (s : State) (v n : List TensorId) (B : Nat)
    (r : List TensorId × List TensorId) : Prop where
  vmono : ∀ x ∈ v, x ∈ r.1
  next : ∃ d, r.2 = n ++ d
  vbound : ∀ x ∈ r.1, x ∈ v ∨ x < B
  nnew : ∀ x ∈ r.2, x ∈ n ∨ x ∉ v
  inv : DWInv s r.1 r.2
  nopend : ∀ x ∈ r.1, hasCtx s x = true → x ∉ r.2 → x ∈ v ∧ x ∉ n

theorem dw_fold (s : State) (fuel : Nat)
    (ih : ∀ (p : Nat) (v n : List TensorId), p < fuel → p ∉ v →
      (∀ x ∈ v, hasCtx s x = true → x ∉ n → p ≤ x) → DWInv s v n →
      DWOut s v n (p + 1) (deepwalkAux s fuel p (v, n)) ∧
        p ∈ (deepwalkAux s fuel p (v, n)).1) :
    ∀ (ps : List TensorId) (B : Nat) (v n : List TensorId),
      (∀ p ∈ ps, p < fuel ∧ p < B) →
      (∀ x ∈ v, hasCtx s x = true → x ∉ n → B ≤ x) →
      DWInv s v n →
      DWOut s v n B
        (ps.foldl (fun a p => if p ∈ a.1 then a else deepwalkAux s fuel p a) (v, n))
      ∧ ∀ p ∈ ps,
          p ∈ (ps.foldl (fun a p => if p ∈ a.1 then a else deepwalkAux s fuel p a) (v, n)).1 := by
  intro ps
  induction ps with
  | nil =>
      intro B v n hps hpend hinv
      refine ⟨⟨fun x hx => hx, ⟨[], by simp⟩, fun x hx => Or.inl hx,
        fun x hx => Or.inl hx, hinv, fun x hx hc hn => ⟨hx, hn⟩⟩, ?_⟩
      intro p hp
      cases hp
  | cons p ps ihps =>
      intro B v n hps hpend hinv
      have hpB : p < fuel ∧ p < B := hps p (List.mem_cons_self p ps)
      rw [List.foldl_cons]
      by_cases hpv : p ∈ v
      · rw [if_pos hpv]
        obtain ⟨hout, hmem⟩ := ihps B v n (fun q hq => hps q (List.mem_cons_of_mem p hq))
          hpend hinv
        refine ⟨hout, ?_⟩
        intro q hq
        rcases List.mem_cons.mp hq with hq | hq
        · subst hq; exact hout.vmono q hpv
        · exact hmem q hq
      · rw [if_neg hpv]
        obtain ⟨out1, hpmem⟩ := ih p v n hpB.1 hpv
          (fun x hx hc hn => Nat.le_of_lt (Nat.lt_of_lt_of_le hpB.2 (hpend x hx hc hn))) hinv
        set r1 := deepwalkAux s fuel p (v, n) with hr1
        obtain ⟨out2, hmem2⟩ := ihps B r1.1 r1.2
          (fun q hq => hps q (List.mem_cons_of_mem p hq))
          (fun x hx hc hn => by
            have h2 := out1.nopend x hx hc hn
            exact hpend x h2.1 hc h2.2)
          out1.inv
        refine ⟨⟨?_, ?_, ?_, ?_, out2.inv, ?_⟩, ?_⟩
        · intro x hx
          exact out2.vmono x (out1.vmono x hx)
        · obtain ⟨d1, hd1⟩ := out1.next
          obtain ⟨d2, hd2⟩ := out2.next
          exact ⟨d1 ++ d2, by rw [hd2, hd1, List.append_assoc]⟩
        · intro x hx
          rcases out2.vbound x hx with hx2 | hx2
          · rcases out1.vbound x hx2 with hx3 | hx3
            · exact Or.inl hx3
            · exact Or.inr (Nat.lt_of_lt_of_le hx3 hpB.2)
          · exact Or.inr hx2
        · intro x hx
          rcases out2.nnew x hx with hx2 | hx2
          · exact out1.nnew x hx2
          · exact Or.inr (fun hxv => hx2 (out1.vmono x hxv))
        · intro x hx hc hn
          have h2 := out2.nopend x hx hc hn
          obtain ⟨d1, hd1⟩ := out1.next
          have hxn1 : x ∉ r1.2 := h2.2
          exact out1.nopend x h2.1 hc hxn1
        · intro q hq
          rcases List.mem_cons.mp hq with hq | hq
          · subst hq
            exact out2.vmono q hpmem
          · exact hmem2 q hq

end TinyGrad

namespace TinyGrad

theorem dw_node (s : State) (hwf : WF s) :
    ∀ (fuel : Nat) (i : Nat) (v n : List TensorId),
      i < fuel → i ∉ v →
      (∀ x ∈ v, hasCtx s x = true → x ∉ n → i ≤ x) →
      DWInv s v n →
      DWOut s v n (i + 1) (deepwalkAux s fuel i (v, n)) ∧
        i ∈ (deepwalkAux s fuel i (v, n)).1 := by
  intro fuel
  induction fuel with
  | zero => intro i v n hif _ _ _; exact absurd hif (Nat.not_lt_zero i)
  | succ fuel ih =>
      intro i v n hif hiv hpend hinv
      have hinv2 : DWInv s (i :: v) n :=
        ⟨hinv.nodup, fun x hx => List.mem_cons_of_mem i (hinv.sub x hx), hinv.hasctx,
          fun x hx p hp => List.mem_cons_of_mem i (hinv.closed x hx p hp), hinv.ord⟩
      cases hctx : ctxOf s i with
      | none =>
          have hres : deepwalkAux s (fuel + 1) i (v, n) = (i :: v, n) := by
            simp only [deepwalkAux, hctx]
          rw [hres]
          have hnoctx : hasCtx s i = false := by unfold hasCtx; rw [hctx]; rfl
          refine ⟨⟨fun x hx => List.mem_cons_of_mem i hx, ⟨[], by simp⟩, ?_,
            fun x hx => Or.inl hx, hinv2, ?_⟩, List.mem_cons_self i v⟩
          · intro x hx
            rcases List.mem_cons.mp hx with hx | hx
            · exact Or.inr (hx ▸ Nat.lt_succ_self i)
            · exact Or.inl hx
          · intro x hx hc hn
            rcases List.mem_cons.mp hx with hx | hx
            · exfalso; rw [hx, hnoctx] at hc; cases hc
            · exact ⟨hx, hn⟩
      | some c =>
          have hres : deepwalkAux s (fuel + 1) i (v, n) =
              ((c.parents.foldl
                  (fun a p => if p ∈ a.1 then a else deepwalkAux s fuel p a) (i :: v, n)).1,
               (c.parents.foldl
                  (fun a p => if p ∈ a.1 then a else deepwalkAux s fuel p a) (i :: v, n)).2
                 ++ [i]) := by
            simp only [deepwalkAux, hctx]
          rw [hres]
          have hpar : parentsOf s i = c.parents := by
            unfold parentsOf; rw [hctx]
          have hhas : hasCtx s i = true := by unfold hasCtx; rw [hctx]; rfl
          have hbounds : ∀ p ∈ c.parents, p < fuel ∧ p < i := by
            intro p hp
            have hpi : p < i := hwf i c hctx p hp
            exact ⟨Nat.lt_of_lt_of_le hpi (Nat.lt_succ_iff.mp hif), hpi⟩
          have hpend2 : ∀ x ∈ i :: v, hasCtx s x = true → x ∉ n → i ≤ x := by
            intro x hx hc hn
            rcases List.mem_cons.mp hx with hx | hx
            · exact hx ▸ Nat.le_refl i
            · exact hpend x hx hc hn
          obtain ⟨outf, hmemf⟩ := dw_fold s fuel ih c.parents i (i :: v) n hbounds hpend2 hinv2
          set r := c.parents.foldl
            (fun a p => if p ∈ a.1 then a else deepwalkAux s fuel p a) (i :: v, n) with hr
          have himem : i ∈ r.1 := outf.vmono i (List.mem_cons_self i v)
          have hinotr2 : i ∉ r.2 := by
            intro hmem
            rcases outf.nnew i hmem with hn2 | hv2
            · exact hiv (hinv.sub i hn2)
            · exact hv2 (List.mem_cons_self i v)
          refine ⟨⟨?_, ?_, ?_, ?_, ⟨?_, ?_, ?_, ?_, ?_⟩, ?_⟩, himem⟩
          · intro x hx
            exact outf.vmono x (List.mem_cons_of_mem i hx)
          · obtain ⟨d, hd⟩ := outf.next
            exact ⟨d ++ [i], by rw [hd, List.append_assoc]⟩
          · intro x hx
            rcases outf.vbound x hx with hx2 | hx2
            · rcases List.mem_cons.mp hx2 with hx3 | hx3
              · exact Or.inr (hx3 ▸ Nat.lt_succ_self i)
              · exact Or.inl hx3
            · exact Or.inr (Nat.lt_succ_of_lt hx2)
          · intro x hx
            rcases List.mem_append.mp hx with hx2 | hx2
            · rcases outf.nnew x hx2 with hx3 | hx3
              · exact Or.inl hx3
              · exact Or.inr (fun hxv => hx3 (List.mem_cons_of_mem i hxv))
            · have hxi : x = i := by simpa using hx2
              exact Or.inr (hxi ▸ hiv)
          · rw [List.nodup_append]
            exact ⟨outf.inv.nodup, List.nodup_singleton i,
              fun a ha hb => absurd ((by simpa using hb : a = i) ▸ ha) hinotr2⟩
          · intro x hx
            rcases List.mem_append.mp hx with hx2 | hx2
            · exact outf.inv.sub x hx2
            · exact (by simpa using hx2 : x = i) ▸ himem
          · intro x hx
            rcases List.mem_append.mp hx with hx2 | hx2
            · exact outf.inv.hasctx x hx2
            · exact (by simpa using hx2 : x = i) ▸ hhas
          · intro x hx p hp
            rcases List.mem_append.mp hx with hx2 | hx2
            · exact outf.inv.closed x hx2 p hp
            · have hxi : x = i := by simpa using hx2
              rw [hxi, hpar] at hp
              exact hmemf p hp
          · intro x hx p hp hpmem
            rcases List.mem_append.mp hx with hx2 | hx2
            · rcases List.mem_append.mp hpmem with hp2 | hp2
              · rw [List.indexOf_append_of_mem hp2, List.indexOf_append_of_mem hx2]
                exact outf.inv.ord x hx2 p hp hp2
              · have hpi : p = i := by simpa using hp2
                subst hpi
                exfalso
                rcases outf.nnew x hx2 with hxn | hxv
                · exact hiv (hinv.closed x hxn p hp)
                · rcases outf.vbound x (outf.inv.sub x hx2) with hx3 | hx3
                  · exact hxv hx3
                  · exact Nat.lt_asymm hx3 (wf_parentsOf hwf hp)
            · have hxi : x = i := by simpa using hx2
              subst hxi
              rcases List.mem_append.mp hpmem with hp2 | hp2
              · rw [List.indexOf_append_of_mem hp2,
                  List.indexOf_append_of_not_mem hinotr2]
                have h4 : r.2.indexOf p < r.2.length := List.indexOf_lt_length.mpr hp2
                simpa using h4
              · exfalso
                have hpi : p = x := by simpa using hp2
                have hplx : p < x := wf_parentsOf hwf hp
                rw [hpi] at hplx
                exact Nat.lt_irrefl x hplx
          · intro x hx hc hn
            have hxne : x ≠ i := fun he => hn (List.mem_append.mpr (Or.inr (by simp [he])))
            have hxnr2 : x ∉ r.2 := fun he => hn (List.mem_append.mpr (Or.inl he))
            have h2 := outf.nopend x hx hc hxnr2
            rcases List.mem_cons.mp h2.1 with hx3 | hx3
            · exact absurd hx3 hxne
            · exact ⟨hx3, h2.2⟩

end TinyGrad

namespace TinyGrad

/-- Decidable check of heap well-formedness. -/
def WFb (s : State) : Bool :=
  (List.range s.length).all (fun i => (parentsOf s i).all (fun p => decide (p < i)))

theorem WF_of_WFb {s : State} (h : WFb s = true) : WF s := by
  intro i c hc p hp
  have hi : i < s.length := by
    unfold ctxOf at hc
    cases hg : s[i]? with
    | none => rw [hg] at hc; cases hc
    | some t => exact get_valid hg
  have h2 := (List.all_eq_true.mp h) i (List.mem_range.mpr hi)
  have hp2 : p ∈ parentsOf s i := by
    unfold parentsOf; rw [hc]; exact hp
  have h3 := (List.all_eq_true.mp h2) p hp2
  exact of_decide_eq_true h3

/-- C2: for every terminal tensor on a well-formed heap, the graph walk
produces a node sequence in which each tensor appears at most once (identity-
based visited set, so diamond dependencies are visited once), every appended
tensor has a producer and appears after all the parents it depends on for
gradient computation that were appended, tensors with no producer are never
appended, and every visited tensor's parents are visited (so producerless
ancestors are still visited), starting from the terminal itself. -/
theorem deepwalk_topological (s : State) (hwf : WF s) (root : Nat) :
    (Tensor.deepwalk s root).2.Nodup
    ∧ (∀ x ∈ (Tensor.deepwalk s root).2, hasCtx s x = true)
    ∧ (∀ x ∈ (Tensor.deepwalk s root).2, x ∈ (Tensor.deepwalk s root).1)
    ∧ root ∈ (Tensor.deepwalk s root).1
    ∧ (∀ x ∈ (Tensor.deepwalk s root).1, hasCtx s x = true → x ∈ (Tensor.deepwalk s root).2)
    ∧ (∀ x ∈ (Tensor.deepwalk s root).1, ∀ p ∈ parentsOf s x, p ∈ (Tensor.deepwalk s root).1)
    ∧ (∀ x ∈ (Tensor.deepwalk s root).2, ∀ p ∈ parentsOf s x,
        p ∈ (Tensor.deepwalk s root).2 →
        (Tensor.deepwalk s root).2.indexOf p < (Tensor.deepwalk s root).2.indexOf x) := by
  have hinv0 : DWInv s [] [] :=
    ⟨List.nodup_nil, fun x hx => absurd hx (List.not_mem_nil x),
     fun x hx => absurd hx (List.not_mem_nil x),
     fun x hx => absurd hx (List.not_mem_nil x),
     fun x hx => absurd hx (List.not_mem_nil x)⟩
  obtain ⟨out, hmem⟩ := dw_node s hwf (root + 1) root [] [] (Nat.lt_succ_self root)
    (List.not_mem_nil root) (fun x hx => absurd hx (List.not_mem_nil x)) hinv0
  simp only [Tensor.deepwalk]
  have hctx2 : ∀ x ∈ (deepwalkAux s (root + 1) root ([], [])).1, hasCtx s x = true →
      x ∈ (deepwalkAux s (root + 1) root ([], [])).2 := by
    intro x hx hc
    by_contra hn
    exact absurd (out.nopend x hx hc hn).1 (List.not_mem_nil x)
  refine ⟨out.inv.nodup, out.inv.hasctx, out.inv.sub, hmem, hctx2, ?_, out.inv.ord⟩
  intro x hx p hp
  cases hb : hasCtx s x with
  | true => exact out.inv.closed x (hctx2 x hx hb) p hp
  | false => rw [parentsOf_nil_of_no_ctx hb] at hp; cases hp

theorem deepwalk_topological_witness :
    (Tensor.deepwalk (dmdS3 1 2 3) 5).2.Nodup ∧
      5 ∈ (Tensor.deepwalk (dmdS3 1 2 3) 5).1 :=
  ⟨(deepwalk_topological (dmdS3 1 2 3) (WF_of_WFb (by decide)) 5).1,
   (deepwalk_topological (dmdS3 1 2 3) (WF_of_WFb (by decide)) 5).2.2.2.1⟩

end TinyGrad
